import Mathlib

/-! Verification development for the SMOL_CHAT email-AI servers
(`llama_api_server.cpp`, `llama_api_server_cv_detection.cpp`).

C++ `std::string` values are modelled as `List Char`, one `Char` per byte
(every byte value 0..255 is a valid Lean code point).  JSON numbers are
modelled exactly as decimals `mant / 10 ^ fexp` (`JNum`): every JSON number
literal denotes such a value, and the comparisons and clamping performed by
the code are unaffected by this choice on the values it handles.  The nlohmann
JSON library used by the code is modelled by a strict recursive-descent
reader (`jsonParse`) with the library's documented accept/reject behaviour:
strict UTF-8 validation inside strings, standard escapes including
surrogate pairs, no trailing input, objects stored as key-sorted maps with
last-duplicate-wins, and `basic_json::value` lookups that fail on a stored
value of the wrong type. -/

/-- One byte of a C++ string, as a Lean character. -/
def byteChar (n : Nat) : Char := Char.ofNat n

/-- View a Lean string literal as a C++ byte string (all literals used are ASCII). -/
def cstr (s : String) : List Char := s.data

def lbraceCh : Char := byteChar 123
def rbraceCh : Char := byteChar 125
def lbrackCh : Char := byteChar 91
def rbrackCh : Char := byteChar 93
def btickCh : Char := byteChar 96
def dqCh : Char := byteChar 34
def bslashCh : Char := byteChar 92
def lparenCh : Char := byteChar 40
def rparenCh : Char := byteChar 41

/-- `std::string::find(char)`: index of the first occurrence. -/
def strFindChar (s : List Char) (c : Char) : Option Nat :=
  match s with
  | [] => none
  | x :: xs => if x = c then some 0 else (strFindChar xs c).map (· + 1)

/-- `std::string::rfind(char)`: index of the last occurrence. -/
def strRFindChar (s : List Char) (c : Char) : Option Nat :=
  match strFindChar s.reverse c with
  | none => none
  | some j => some (s.length - 1 - j)

/-- `std::string::find(substring)`: index of the first occurrence. -/
def strFind (s pat : List Char) : Option Nat :=
  if pat.isPrefixOf s then some 0
  else
    match s with
    | [] => none
    | _ :: xs => (strFind xs pat).map (· + 1)

/-- `std::string::substr(pos, len)` (length clamped to the string end). -/
def substrCpp (s : List Char) (pos len : Nat) : List Char := (s.drop pos).take len

/-- A JSON number: the exact value `mant / 10 ^ fexp`. -/
structure JNum where
  mant : Int
  fexp : Nat
deriving DecidableEq

/-- Value order on `JNum`: `a < b` compared exactly, as the C++ `double`
comparison behaves on the decimal values the code handles. -/
def jnumLt (a b : JNum) : Bool :=
  a.mant * (10 : Int) ^ b.fexp < b.mant * (10 : Int) ^ a.fexp

def jnumZero : JNum := ⟨0, 0⟩
def jnumOne : JNum := ⟨1, 0⟩

/-- The C++ literal `0.5`. -/
def jnumHalf : JNum := ⟨5, 1⟩

/-- The JSON values of the nlohmann library, with numbers as exact decimals
and objects as key-sorted association lists (the library's `std::map`). -/
inductive CJson where
  | null
  | bool (b : Bool)
  | num (q : JNum)
  | str (s : List Char)
  | arr (elems : List CJson)
  | obj (members : List (List Char × CJson))

/-- Byte-lexicographic `<` on keys, the `std::map` order for `std::string`. -/
def keyLt : List Char → List Char → Bool
  | [], [] => false
  | [], _ :: _ => true
  | _ :: _, [] => false
  | a :: as, b :: bs =>
    if a.toNat < b.toNat then true
    else if b.toNat < a.toNat then false
    else keyLt as bs

/-- Sorted insertion with overwrite: `std::map::operator[]` followed by assignment. -/
def objInsert (k : List Char) (v : CJson) :
    List (List Char × CJson) → List (List Char × CJson)
  | [] => [(k, v)]
  | (k0, v0) :: rest =>
    if keyLt k k0 then (k, v) :: (k0, v0) :: rest
    else if k = k0 then (k, v) :: rest
    else (k0, v0) :: objInsert k v rest

/-- `std::map::find` on the stored members. -/
def objFind (members : List (List Char × CJson)) (k : List Char) : Option CJson :=
  match members with
  | [] => none
  | (k0, v0) :: rest => if k0 = k then some v0 else objFind rest k

/-- The whitespace skipped by the nlohmann lexer. -/
def jsonWsB (c : Char) : Bool := c = ' ' || c = '\t' || c = '\n' || c = '\r'

def skipJsonWs (s : List Char) : List Char := s.dropWhile jsonWsB

def digitB (c : Char) : Bool := '0' ≤ c && c ≤ '9'

def digitsVal (ds : List Char) : Nat := ds.foldl (fun a c => 10 * a + (c.toNat - 48)) 0

def hexVal (c : Char) : Option Nat :=
  if '0' ≤ c ∧ c ≤ '9' then some (c.toNat - 48)
  else if 'a' ≤ c ∧ c ≤ 'f' then some (c.toNat - 87)
  else if 'A' ≤ c ∧ c ≤ 'F' then some (c.toNat - 55)
  else none

def parseHex4 : List Char → Option (Nat × List Char)
  | a :: b :: c :: d :: r =>
    match hexVal a, hexVal b, hexVal c, hexVal d with
    | some x, some y, some z, some w => some (((x * 16 + y) * 16 + z) * 16 + w, r)
    | _, _, _, _ => none
  | _ => none

/-- UTF-8 encoding of a code point, as the bytes the library appends. -/
def utf8Enc (cp : Nat) : List Char :=
  if cp < 128 then [byteChar cp]
  else if cp < 2048 then [byteChar (192 + cp / 64), byteChar (128 + cp % 64)]
  else if cp < 65536 then
    [byteChar (224 + cp / 4096), byteChar (128 + cp / 64 % 64), byteChar (128 + cp % 64)]
  else
    [byteChar (240 + cp / 262144), byteChar (128 + cp / 4096 % 64),
     byteChar (128 + cp / 64 % 64), byteChar (128 + cp % 64)]

def contByte (c : Char) : Bool := 128 ≤ c.toNat && c.toNat ≤ 191

/-- String scanner of the nlohmann lexer, after the opening quote: standard
escapes, `\u` with surrogate pairs, rejection of raw control bytes and of
ill-formed UTF-8.  The accumulator holds the decoded bytes in reverse. -/
def parseStringBody : Nat → List Char → List Char → Option (List Char × List Char)
  | 0, _, _ => none
  | _ + 1, [], _ => none
  | fuel + 1, c :: r, acc =>
    if c = dqCh then some (acc.reverse, r)
    else if c = bslashCh then
      match r with
      | [] => none
      | e :: r2 =>
        if e = dqCh then parseStringBody fuel r2 (dqCh :: acc)
        else if e = bslashCh then parseStringBody fuel r2 (bslashCh :: acc)
        else if e = '/' then parseStringBody fuel r2 ('/' :: acc)
        else if e = 'b' then parseStringBody fuel r2 (byteChar 8 :: acc)
        else if e = 'f' then parseStringBody fuel r2 (byteChar 12 :: acc)
        else if e = 'n' then parseStringBody fuel r2 ('\n' :: acc)
        else if e = 'r' then parseStringBody fuel r2 ('\r' :: acc)
        else if e = 't' then parseStringBody fuel r2 ('\t' :: acc)
        else if e = 'u' then
          match parseHex4 r2 with
          | none => none
          | some (cp, r3) =>
            if 55296 ≤ cp ∧ cp ≤ 56319 then
              match r3 with
              | e2 :: u2 :: r4 =>
                if e2 = bslashCh ∧ u2 = 'u' then
                  match parseHex4 r4 with
                  | none => none
                  | some (lo, r5) =>
                    if 56320 ≤ lo ∧ lo ≤ 57343 then
                      parseStringBody fuel r5
                        ((utf8Enc (65536 + (cp - 55296) * 1024 + (lo - 56320))).reverse ++ acc)
                    else none
                else none
              | _ => none
            else if 56320 ≤ cp ∧ cp ≤ 57343 then none
            else parseStringBody fuel r3 ((utf8Enc cp).reverse ++ acc)
        else none
    else if c.toNat < 32 then none
    else if c.toNat < 128 then parseStringBody fuel r (c :: acc)
    else if 194 ≤ c.toNat ∧ c.toNat ≤ 223 then
      match r with
      | b1 :: r2 => if contByte b1 then parseStringBody fuel r2 (b1 :: c :: acc) else none
      | [] => none
    else if c.toNat = 224 then
      match r with
      | b1 :: b2 :: r2 =>
        if (160 ≤ b1.toNat ∧ b1.toNat ≤ 191) ∧ contByte b2 then
          parseStringBody fuel r2 (b2 :: b1 :: c :: acc)
        else none
      | _ => none
    else if (225 ≤ c.toNat ∧ c.toNat ≤ 236) ∨ c.toNat = 238 ∨ c.toNat = 239 then
      match r with
      | b1 :: b2 :: r2 =>
        if contByte b1 ∧ contByte b2 then parseStringBody fuel r2 (b2 :: b1 :: c :: acc)
        else none
      | _ => none
    else if c.toNat = 237 then
      match r with
      | b1 :: b2 :: r2 =>
        if (128 ≤ b1.toNat ∧ b1.toNat ≤ 159) ∧ contByte b2 then
          parseStringBody fuel r2 (b2 :: b1 :: c :: acc)
        else none
      | _ => none
    else if c.toNat = 240 then
      match r with
      | b1 :: b2 :: b3 :: r2 =>
        if (144 ≤ b1.toNat ∧ b1.toNat ≤ 191) ∧ contByte b2 ∧ contByte b3 then
          parseStringBody fuel r2 (b3 :: b2 :: b1 :: c :: acc)
        else none
      | _ => none
    else if 241 ≤ c.toNat ∧ c.toNat ≤ 243 then
      match r with
      | b1 :: b2 :: b3 :: r2 =>
        if contByte b1 ∧ contByte b2 ∧ contByte b3 then
          parseStringBody fuel r2 (b3 :: b2 :: b1 :: c :: acc)
        else none
      | _ => none
    else if c.toNat = 244 then
      match r with
      | b1 :: b2 :: b3 :: r2 =>
        if (128 ≤ b1.toNat ∧ b1.toNat ≤ 143) ∧ contByte b2 ∧ contByte b3 then
          parseStringBody fuel r2 (b3 :: b2 :: b1 :: c :: acc)
        else none
      | _ => none
    else none

/-- Optional exponent part of a JSON number: a negative exponent deepens
the decimal scale, a positive one multiplies into the mantissa. -/
def parseExpPart (v : JNum) (s : List Char) : Option (JNum × List Char) :=
  match s with
  | [] => some (v, [])
  | c :: r =>
    if c = 'e' ∨ c = 'E' then
      let signAndRest : Bool × List Char :=
        match r with
        | '-' :: rr => (true, rr)
        | '+' :: rr => (false, rr)
        | _ => (false, r)
      let ed := signAndRest.2.takeWhile digitB
      if ed.isEmpty then none
      else
        let e := digitsVal ed
        some ((if signAndRest.1 then ⟨v.mant, v.fexp + e⟩
               else ⟨v.mant * (10 : Int) ^ e, v.fexp⟩ : JNum),
              signAndRest.2.dropWhile digitB)
    else some (v, s)

/-- Optional fraction part (then exponent) after the integer part. -/
def parseFracExp (ip : Nat) (s : List Char) : Option (JNum × List Char) :=
  match s with
  | '.' :: r =>
    let fd := r.takeWhile digitB
    if fd.isEmpty then none
    else
      parseExpPart ⟨(ip * 10 ^ fd.length + digitsVal fd : Nat), fd.length⟩
        (r.dropWhile digitB)
  | _ => parseExpPart ⟨(ip : Int), 0⟩ s

/-- JSON number per the RFC 8259 grammar enforced by the nlohmann lexer:
optional minus, no leading zeros, nonempty fraction and exponent digits. -/
def parseNumber (s : List Char) : Option (CJson × List Char) :=
  let signAndRest : Bool × List Char :=
    match s with
    | '-' :: r => (true, r)
    | _ => (false, s)
  let neg := signAndRest.1
  match signAndRest.2 with
  | [] => none
  | '0' :: r =>
    match r with
    | c :: _ =>
      if digitB c then none
      else
        (parseFracExp 0 r).map
          (fun p => (CJson.num (if neg then ⟨-p.1.mant, p.1.fexp⟩ else p.1), p.2))
    | [] => some (CJson.num jnumZero, [])
  | c :: _ =>
    if digitB c then
      let s1 := signAndRest.2
      (parseFracExp (digitsVal (s1.takeWhile digitB)) (s1.dropWhile digitB)).map
        (fun p => (CJson.num (if neg then ⟨-p.1.mant, p.1.fexp⟩ else p.1), p.2))
    else none

mutual

/-- One JSON value, fuelled recursive descent (`fuel` dominates the nesting
depth; every recursive call is made on a strictly shorter input). -/
def parseValue : Nat → List Char → Option (CJson × List Char)
  | 0, _ => none
  | fuel + 1, s0 =>
    match skipJsonWs s0 with
    | 't' :: 'r' :: 'u' :: 'e' :: r => some (.bool true, r)
    | 'f' :: 'a' :: 'l' :: 's' :: 'e' :: r => some (.bool false, r)
    | 'n' :: 'u' :: 'l' :: 'l' :: r => some (.null, r)
    | c :: r =>
      if c = dqCh then (parseStringBody (r.length + 1) r []).map (fun p => (CJson.str p.1, p.2))
      else if c = lbraceCh then
        match skipJsonWs r with
        | c2 :: r3 =>
          if c2 = rbraceCh then some (.obj [], r3) else parseMembers fuel (skipJsonWs r) []
        | [] => none
      else if c = lbrackCh then
        match skipJsonWs r with
        | c2 :: r3 =>
          if c2 = rbrackCh then some (.arr [], r3) else parseElems fuel (skipJsonWs r) []
        | [] => none
      else parseNumber (skipJsonWs s0)
    | [] => none

/-- Members of an object after `{`, positioned at a key. -/
def parseMembers : Nat → List Char → List (List Char × CJson) →
    Option (CJson × List Char)
  | 0, _, _ => none
  | fuel + 1, s, acc =>
    match s with
    | [] => none
    | c :: r =>
      if c = dqCh then
        match parseStringBody (r.length + 1) r [] with
        | none => none
        | some (key, r2) =>
          match skipJsonWs r2 with
          | ':' :: r3 =>
            match parseValue fuel r3 with
            | none => none
            | some (v, r4) =>
              match skipJsonWs r4 with
              | ',' :: r5 => parseMembers fuel (skipJsonWs r5) (objInsert key v acc)
              | c5 :: r5 => if c5 = rbraceCh then some (.obj (objInsert key v acc), r5) else none
              | [] => none
          | _ => none
      else none

/-- Elements of an array after `[`, positioned at a value. -/
def parseElems : Nat → List Char → List CJson → Option (CJson × List Char)
  | 0, _, _ => none
  | fuel + 1, s, acc =>
    match parseValue fuel s with
    | none => none
    | some (v, r) =>
      match skipJsonWs r with
      | ',' :: r2 => parseElems fuel r2 (acc ++ [v])
      | c2 :: r2 => if c2 = rbrackCh then some (.arr (acc ++ [v]), r2) else none
      | [] => none

end

/-- The nlohmann reader skips a leading UTF-8 byte-order mark. -/
def stripBOM (s : List Char) : List Char :=
  match s with
  | a :: b :: c :: r =>
    if a.toNat = 239 ∧ b.toNat = 187 ∧ c.toNat = 191 then r else a :: b :: c :: r
  | _ => s

/-- `nlohmann::json::parse` on a byte string: one value, nothing but
whitespace after it; `none` is a thrown exception.  Modelling note: with
numbers kept exact, `none` covers `parse_error`; the library additionally
throws `out_of_range` 406 when a number overflows `double` (e.g. `1e999`),
an escape path this reader does not distinguish and no theorem relies on. -/
def jsonParse (s0 : List Char) : Option CJson :=
  let s := stripBOM s0
  match parseValue (2 * s.length + 4) s with
  | some (v, rest) => if (skipJsonWs rest).isEmpty then some v else none
  | none => none

/-! ### The delimited-JSON extractor family
(`parse_cv_metadata`, `parse_draft_reply`, `parse_classification` in
`llama_api_server_cv_detection.cpp`).  The three functions share their span
location and cleaning code verbatim; it is factored here into
`find_json_span` and `clean_json_slice`. -/

def fence7str : String := "```json"

def fence7 : List Char := cstr fence7str

def fenceGapB (c : Char) : Bool := c = '\n' || c = '\r' || c = ' '

/-- The `while` loop advancing `start_marker` past newlines, carriage
returns and spaces that follow a ```` ```json ```` opener. -/
def skipFenceGap (s : List Char) (i : Nat) : Nat :=
  i + ((s.drop i).takeWhile fenceGapB).length

/-- The computed `start_marker`: a fenced opener (skipping the following
whitespace) or else the first `{`. -/
def json_span_start (mo : List Char) : Option Nat :=
  match strFind mo fence7 with
  | none => strFindChar mo lbraceCh
  | some i => some (skipFenceGap mo (i + 7))

/-- Locating the candidate JSON span: the `start_marker`/`end_marker`
validity check, where the end is the last `}` and must strictly follow the
start. -/
def find_json_span (mo : List Char) : Option (Nat × Nat) :=
  match json_span_start mo, strRFindChar mo rbraceCh with
  | some st, some en => if st < en then some (st, en) else none
  | some _, none => none
  | none, _ => none

def stripTailB (c : Char) : Bool := c = btickCh || c = '\n' || c = '\r' || c = ' '

/-- The `while (...) pop_back()` loop stripping trailing backticks,
newlines, carriage returns and spaces. -/
def strip_trailing (s : List Char) : List Char :=
  (s.reverse.dropWhile stripTailB).reverse

/-- The UTF-8 byte pair of a non-breaking space. -/
def nbsp2 : List Char := [byteChar 194, byteChar 160]

/-- The `while (find(nbsp) != npos) replace(...)` loop; each round replaces
the first remaining occurrence by one space, so the fuel `length + 1`
always suffices. -/
def replaceNbspFuel : Nat → List Char → List Char
  | 0, s => s
  | fuel + 1, s =>
    match strFind s nbsp2 with
    | none => s
    | some p => replaceNbspFuel fuel (s.take p ++ ' ' :: s.drop (p + 2))

def replace_nbsp (s : List Char) : List Char := replaceNbspFuel (s.length + 1) s

/-- Slicing and cleaning of a located span, shared by the three extractors. -/
def clean_json_slice (mo : List Char) (st en : Nat) : List Char :=
  replace_nbsp (strip_trailing (substrCpp mo st (en - st + 1)))

def unknownStr : List Char := cstr "Unknown"

/-- The fixed CV fallback record (keys in `std::map` order). -/
def cv_fallback : CJson :=
  .obj [(cstr "education", .str unknownStr),
        (cstr "experience", .str unknownStr),
        (cstr "name", .str unknownStr),
        (cstr "position", .str unknownStr),
        (cstr "skills", .arr [])]

/-- `parse_cv_metadata`: recover the span, clean it, parse strictly; any
failure yields the fixed fallback record. -/
def parse_cv_metadata (mo : List Char) : CJson :=
  match find_json_span mo with
  | none => cv_fallback
  | some (st, en) =>
    match jsonParse (clean_json_slice mo st en) with
    | some parsed => parsed
    | none => cv_fallback

/-- The fixed draft-reply fallback record (keys in `std::map` order). -/
def draft_fallback : CJson :=
  .obj [(cstr "draft_reply", .str (cstr "Unable to generate reply. Please try again.")),
        (cstr "subject", .str (cstr "Re: [Subject]"))]

/-- `parse_draft_reply`: same recovery, draft-reply fallback. -/
def parse_draft_reply (mo : List Char) : CJson :=
  match find_json_span mo with
  | none => draft_fallback
  | some (st, en) =>
    match jsonParse (clean_json_slice mo st en) with
    | some parsed => parsed
    | none => draft_fallback

/-- `basic_json::value(key, default)` at type `std::string`: `.error ()` is
the `type_error` the library throws on a non-object (306) or when the
stored value is not a string (302); that exception is NOT caught by
`parse_classification`, whose `catch` clause only covers `parse_error`. -/
def value_str (j : CJson) (key dflt : List Char) : Except Unit (List Char) :=
  match j with
  | .obj ms =>
    match objFind ms key with
    | none => .ok dflt
    | some (.str s) => .ok s
    | some _ => .error ()
  | _ => .error ()

/-- `basic_json::value(key, default)` at type `double` (`number_float_t`):
any stored number converts via `get_arithmetic_value`, whose switch covers
only the three number types; any other stored type — boolean included —
throws `type_error` 302 (the boolean-to-arithmetic conversion exists only
in the generic overload, which is disabled for `number_float_t`). -/
def value_num (j : CJson) (key : List Char) (dflt : JNum) : Except Unit JNum :=
  match j with
  | .obj ms =>
    match objFind ms key with
    | none => .ok dflt
    | some (.num q) => .ok q
    | some _ => .error ()
  | _ => .error ()

def valid_categories : List (List Char) :=
  [cstr "Urgent & Action Required",
   cstr "Normal Follow-up",
   cstr "FYI / Low Priority",
   cstr "Spam"]

def default_category : List Char := cstr "FYI / Low Priority"

/-- The two sequential `if` clamps applied to the parsed confidence:
`if (confidence < 0.0) ...; if (confidence > 1.0) ...`. -/
def clamp01 (q : JNum) : JNum :=
  let q1 := if jnumLt q jnumZero then jnumZero else q
  if jnumLt jnumOne q1 then jnumOne else q1

/-- The post-parse tail of `parse_classification`: category lookup and
closed-set validation, then confidence lookup and clamping.  Either
`value` call can throw (`.error ()`), and that error propagates. -/
def classify_parsed (parsed : CJson) : Except Unit CJson :=
  match value_str parsed (cstr "category") default_category with
  | .error e => .error e
  | .ok cat =>
    let category := if valid_categories.contains cat then cat else default_category
    match value_num parsed (cstr "confidence") jnumHalf with
    | .error e => .error e
    | .ok conf =>
      .ok (.obj [(cstr "category", .str category),
                 (cstr "confidence", .num (clamp01 conf))])

/-- The fixed classification fallback record. -/
def classification_fallback : CJson :=
  .obj [(cstr "category", .str default_category),
        (cstr "confidence", .num jnumHalf)]

/-- `parse_classification`: recovery as above; a caught `parse_error` or a
missing span yields the fallback, but a `type_error` raised by the
`value` lookups escapes as `.error ()`. -/
def parse_classification (mo : List Char) : Except Unit CJson :=
  match find_json_span mo with
  | none => .ok classification_fallback
  | some (st, en) =>
    match jsonParse (clean_json_slice mo st en) with
    | some parsed => classify_parsed parsed
    | none => .ok classification_fallback

/-! ### Serialization (`basic_json::dump()` with default arguments):
compact output, members in map order, `"` `\` and control characters
escaped, numbers in shortest round-trip decimal form. -/

def escByte (c : Char) : List Char :=
  if c = dqCh then [bslashCh, dqCh]
  else if c = bslashCh then [bslashCh, bslashCh]
  else if c = byteChar 8 then [bslashCh, 'b']
  else if c = byteChar 12 then [bslashCh, 'f']
  else if c = '\n' then [bslashCh, 'n']
  else if c = '\r' then [bslashCh, 'r']
  else if c = '\t' then [bslashCh, 't']
  else if c.toNat < 32 then
    [bslashCh, 'u', '0', '0',
     (if c.toNat / 16 < 10 then byteChar (48 + c.toNat / 16) else byteChar (87 + c.toNat / 16)),
     (if c.toNat % 16 < 10 then byteChar (48 + c.toNat % 16) else byteChar (87 + c.toNat % 16))]
  else [c]

def escapeStr (s : List Char) : List Char := s.flatMap escByte

def padZeros (k : Nat) (ds : List Char) : List Char :=
  List.replicate (k - ds.length) '0' ++ ds

/-- Trailing-zero normalization of a decimal, so that rendering matches
the shortest round-trip form the library prints for these values. -/
def stripTenZeros : Nat → Nat → Nat × Nat
  | n, 0 => (n, 0)
  | n, e + 1 => if n % 10 = 0 then stripTenZeros (n / 10) e else (n, e + 1)

/-- Decimal rendering of a `JNum`: integers plainly, fractional values with
a decimal point, matching the shortest round-trip form the library prints
for the values serialized here. -/
def dumpNum (q : JNum) : List Char :=
  let sign : List Char := if q.mant < 0 then ['-'] else []
  let p := stripTenZeros q.mant.natAbs q.fexp
  if p.2 = 0 then sign ++ (Nat.repr p.1).data
  else
    sign ++ (Nat.repr (p.1 / 10 ^ p.2)).data ++
      '.' :: padZeros p.2 (Nat.repr (p.1 % 10 ^ p.2)).data

mutual

def dumpJson : CJson → List Char
  | .null => cstr "null"
  | .bool true => cstr "true"
  | .bool false => cstr "false"
  | .num q => dumpNum q
  | .str s => dqCh :: escapeStr s ++ [dqCh]
  | .arr xs => lbrackCh :: dumpElems xs ++ [rbrackCh]
  | .obj ms => lbraceCh :: dumpMembers ms ++ [rbraceCh]

def dumpElems : List CJson → List Char
  | [] => []
  | [x] => dumpJson x
  | x :: y :: xs => dumpJson x ++ ',' :: dumpElems (y :: xs)

def dumpMembers : List (List Char × CJson) → List Char
  | [] => []
  | [(k, v)] => dqCh :: escapeStr k ++ dqCh :: ':' :: dumpJson v
  | (k, v) :: m :: ms =>
    dqCh :: escapeStr k ++ dqCh :: ':' :: dumpJson v ++ ',' :: dumpMembers (m :: ms)

end

/-! ### Persona line extraction (`extract_persona_line` in
`llama_api_server.cpp`). -/

/-- `std::getline` splitting: lines are separated by a newline; a final
newline terminates the last line without producing an empty one, and an
empty stream yields no lines. -/
def getlinesGo : List Char → List Char → List (List Char)
  | [], acc => [acc.reverse]
  | c :: cs, acc =>
    if c = '\n' then
      match cs with
      | [] => [acc.reverse]
      | _ :: _ => acc.reverse :: getlinesGo cs []
    else getlinesGo cs (c :: acc)

def getlines (s : List Char) : List (List Char) :=
  match s with
  | [] => []
  | _ :: _ => getlinesGo s []

/-- The character set of the two `erase`/`find_*_not_of` trims: whitespace
and double quotes. -/
def trimSetB (c : Char) : Bool :=
  c = ' ' || c = '\n' || c = '\r' || c = '\t' || c = dqCh

/-- The two `erase` calls trimming a line on both sides. -/
def cpp_trim (l : List Char) : List Char :=
  ((l.dropWhile trimSetB).reverse.dropWhile trimSetB).reverse

def fence3str : String := "```"

def personaMarkStr : String := "Persona:"

/-- The skip condition: empty line, bare code fence, or prompt echo. -/
def skipLineB (l : List Char) : Bool :=
  l.isEmpty || l = cstr fence3str || (strFind l (cstr personaMarkStr)).isSome

/-- `line.find(name) == 0 && line.length() > 50`. -/
def nameHitB (name l : List Char) : Bool :=
  name.isPrefixOf l && decide (50 < l.length)

/-- `line.length() > 50` with both parenthesis characters present. -/
def parenHitB (l : List Char) : Bool :=
  decide (50 < l.length) && l.contains lparenCh && l.contains rparenCh

/-- The `while (std::getline ...)` scan, carrying `best_line`: a skip
condition continues, a name hit breaks returning the line, a paren hit
updates `best_line` and continues. -/
def persona_loop (name : List Char) : List (List Char) → List Char → List Char
  | [], best => best
  | line :: rest, best =>
    let l := cpp_trim line
    if skipLineB l then persona_loop name rest best
    else if nameHitB name l then l
    else if parenHitB l then persona_loop name rest l
    else persona_loop name rest best

/-- `extract_persona_line`: early return for empty input, otherwise the
line scan starting from an empty `best_line`. -/
def extract_persona_line (raw name : List Char) : List Char :=
  if raw.isEmpty then [] else persona_loop name (getlines raw) []

/-- The last element of a list, or a default: the value left in a "keep
updating the most recent match" fold. -/
def lastOr (xs : List (List Char)) (d : List Char) : List Char :=
  xs.foldl (fun _ x => x) d

/-- Persona selection as the specification words it: over the trimmed,
non-skipped lines, the first line starting with the subject's name and
longer than 50 characters wins immediately; otherwise the last line longer
than 50 characters containing both parentheses; otherwise empty. -/
def persona_selection_spec (raw name : List Char) : List Char :=
  let kept := ((getlines raw).map cpp_trim).filter (fun l => !skipLineB l)
  match kept.find? (nameHitB name) with
  | some l => l
  | none => lastOr (kept.filter parenHitB) []

/-! ### The generation session (`generate` / `generate_tokens` in
`llama_api_server.cpp`).  The llama.cpp engine is abstracted by an
environment: the tokenizer's outcome, the end-of-sequence token id, the
stream of sampled token ids (indexed by the number of tokens generated so
far), each token's text piece (`none` models a non-positive
`llama_token_to_piece` length, which skips appending), and the success of
each `llama_decode` call. -/

structure GenEnv where
  tokenize : List Char → Option (List Int)
  eosTok : Int
  promptDecodeOk : Bool
  sample : Nat → Int
  piece : Int → Option (List Char)
  decodeOk : Nat → Bool

/-- Why the decode loop stopped (the code's four `break`/exit paths). -/
inductive StopReason where
  | endOfSequence
  | maxTokensReached
  | invalidToken
  | decodeFailure
deriving DecidableEq

/-- Observable outcome of `generate_tokens`: the accumulated text, the
final `n_generated`, the exit path, the number of `llama_sampler_accept`
calls made inside the loop, and the number of `llama_decode` calls. -/
structure TokRes where
  text : List Char
  nGenerated : Nat
  stop : StopReason
  loopAccepts : Nat
  decodes : Nat
deriving DecidableEq

/-- The `while (n_generated < max_tokens)` loop body; `fuel` is
`max_tokens - n_generated`.  Order as in the source: sample, end-of-sequence
check (break before any text or accept), invalid-token check, piece
conversion and append, accept, single-token decode (break on failure),
advance.  The position counter `cur_pos` advances in lock step with
`n_generated` and only feeds the decode batch, which `decodeOk`
abstracts, so it is not tracked separately. -/
def gen_loop (env : GenEnv) : Nat → Nat → List Char → Nat → Nat → TokRes
  | 0, nGen, acc, accepted, decodes =>
    ⟨acc, nGen, .maxTokensReached, accepted, decodes⟩
  | fuel + 1, nGen, acc, accepted, decodes =>
    let tok := env.sample nGen
    if tok = env.eosTok then ⟨acc, nGen, .endOfSequence, accepted, decodes⟩
    else if tok < 0 then ⟨acc, nGen, .invalidToken, accepted, decodes⟩
    else
      let acc2 := acc ++ (match env.piece tok with | some p => p | none => [])
      if env.decodeOk nGen then gen_loop env fuel (nGen + 1) acc2 (accepted + 1) (decodes + 1)
      else ⟨acc2, nGen, .decodeFailure, accepted + 1, decodes + 1⟩

/-- `generate_tokens`. -/
def generate_tokens (env : GenEnv) (maxTokens : Nat) : TokRes :=
  gen_loop env maxTokens 0 [] 0 0

/-- Terminal outcome of `generate`: the three thrown errors or a completed
token loop. -/
inductive GenOutcome where
  | tokenizeFailed
  | contextOverflow
  | promptDecodeFailed
  | ok (r : TokRes)
deriving DecidableEq

/-- A `generate` run with its engine-call counts: total `llama_decode`
invocations (the prompt prefill batch counts as one) and total
`llama_sampler_accept` invocations (prompt tokens plus loop tokens). -/
structure GenTrace where
  out : GenOutcome
  decodeCalls : Nat
  acceptCalls : Nat
deriving DecidableEq

/-- `generate`: tokenize (throw on failure), capacity check
`tokens.size() >= n_ctx` (throw before any decode), prompt prefill (one
decode call), prompt-token accepts, then the decode loop. -/
def generate (env : GenEnv) (nCtx : Nat) (prompt : List Char) (maxTokens : Nat) : GenTrace :=
  match env.tokenize prompt with
  | none => ⟨.tokenizeFailed, 0, 0⟩
  | some toks =>
    if nCtx ≤ toks.length then ⟨.contextOverflow, 0, 0⟩
    else if env.promptDecodeOk then
      let r := generate_tokens env maxTokens
      ⟨.ok r, 1 + r.decodes, toks.length + r.loopAccepts⟩
    else ⟨.promptDecodeFailed, 1, 0⟩

/-- Text of the pieces of the tokens sampled at steps `n, n+1, ..., n+k-1`. -/
def piecesFrom (env : GenEnv) : Nat → Nat → List Char
  | _, 0 => []
  | n, k + 1 =>
    (match env.piece (env.sample n) with | some p => p | none => []) ++ piecesFrom env (n + 1) k

/-! ### Concrete inputs used by the claims -/

set_option maxRecDepth 40000

def exC2str : String :=
  "blah blah ```json\n\x7b\"category\": \"Spam\", \"confidence\": 1.7\x7d\n``` trailing"

def spamStr : String := "Spam"

def c1BadStr : String := "```json\n\x7b\"category\": 5, \"confidence\": 0.9\x7d\n```"

def c2CexStr : String := "\x7b\"category\": 7\x7d"

def c7WitStr : String := "no structured output here"

def c10WitStr : String := "\x7b1\x7d"

def exRawStr : String :=
  "  \"John Doe (Engineer, R&D). Preferred language: English. Formal tone. Direct style.\"  \nPersona:\n\n"

def exNameStr : String := "John Doe"

def exLineStr : String :=
  "John Doe (Engineer, R&D). Preferred language: English. Formal tone. Direct style."

def c9WitStr : String := "hi there"

/-- C1.  The claim says no extractor ever lets an exception escape, every
failure being resolved to the task's fallback record.  That is false for
`parse_classification`: on this output the span is found and the JSON
parses, but the stored `category` is a number, so the uncaught
`basic_json::value` `type_error` (modelled `.error ()`) propagates to the
caller instead of yielding any record. -/
theorem parse_classification_raises_on_nonstring_category :
    parse_classification (cstr c1BadStr) = .error () := rfl

/-- C7.  On any model output containing neither a ```` ```json ```` fence
nor an opening brace, `parse_cv_metadata` returns exactly the fixed
fallback record. -/
theorem cv_extraction_braceless_fallback (mo : List Char)
    (hfence : strFind mo fence7 = none)
    (hbrace : strFindChar mo lbraceCh = none) :
    parse_cv_metadata mo = cv_fallback := by
  unfold parse_cv_metadata find_json_span json_span_start
  rw [hfence, hbrace]

theorem cv_extraction_braceless_fallback_witness :
    strFind (cstr c7WitStr) fence7 = none ∧
    strFindChar (cstr c7WitStr) lbraceCh = none ∧
    parse_cv_metadata (cstr c7WitStr) = cv_fallback :=
  ⟨by decide, by decide,
   cv_extraction_braceless_fallback (cstr c7WitStr) (by decide) (by decide)⟩

/-- C8.  Each delimited-JSON extractor, applied to the library
serialization (`dump()`) of its own fallback record, returns that same
fallback: the serialized text has its first `{` at position 0 and its last
`}` at the end, the slice parses, and for classification the fallback's
category is valid and its confidence is already in range. -/
theorem extractors_idempotent_on_fallback :
    parse_cv_metadata (dumpJson cv_fallback) = cv_fallback ∧
    parse_draft_reply (dumpJson draft_fallback) = draft_fallback ∧
    parse_classification (dumpJson classification_fallback) = .ok classification_fallback :=
  ⟨rfl, rfl, rfl⟩

/-- The record `parse_classification` builds from a validated category and
a clamped confidence. -/
def classRecord (category : List Char) (confidence : JNum) : CJson :=
  .obj [(cstr "category", .str category), (cstr "confidence", .num confidence)]

/-- C2 (amended).  After a successful parse, whenever the two `value`
lookups succeed (the stored category, if present, is a string; the stored
confidence, if present, is a number), classification extraction replaces a
category outside the four fixed literals by the neutral default instead of
rejecting the record, and clamps the confidence into [0, 1]; a stored
category or confidence of any other JSON type instead raises (see the C1
result).  On the claimed concrete input it yields
`{category: "Spam", confidence: 1.0}`. -/
theorem classification_validates_category_and_clamps :
    (∀ (parsed : CJson) (cat : List Char) (conf : JNum),
        value_str parsed (cstr "category") default_category = .ok cat →
        value_num parsed (cstr "confidence") jnumHalf = .ok conf →
        classify_parsed parsed =
          .ok (classRecord (if valid_categories.contains cat then cat else default_category)
                (clamp01 conf))) ∧
    (∀ q : JNum, jnumLt (clamp01 q) jnumZero = false ∧ jnumLt jnumOne (clamp01 q) = false) ∧
    parse_classification (cstr exC2str) = .ok (classRecord (cstr spamStr) jnumOne) := by
  refine ⟨?_, ?_, rfl⟩
  · intro parsed cat conf hcat hconf
    unfold classify_parsed
    rw [hcat, hconf]
    rfl
  · intro q
    simp only [clamp01]
    by_cases hq0 : jnumLt q jnumZero = true
    · rw [if_pos hq0, if_neg (by decide : ¬jnumLt jnumOne jnumZero = true)]
      exact ⟨by decide, by decide⟩
    · rw [if_neg hq0]
      by_cases hq1 : jnumLt jnumOne q = true
      · rw [if_pos hq1]
        exact ⟨by decide, by decide⟩
      · rw [if_neg hq1]
        exact ⟨by simpa using hq0, by simpa using hq1⟩

/-- The category-7 payload has a valid span and parses successfully to an
object whose `category` member is a number, so the claimed
replace-by-default behaviour does not happen: the extractor raises
(uncaught `type_error`) and produces no record at all. -/
theorem classification_claim_counterexample :
    jsonParse (clean_json_slice (cstr c2CexStr) 0 14) =
      some (.obj [(cstr "category", .num ⟨7, 0⟩)]) ∧
    parse_classification (cstr c2CexStr) = .error () ∧
    ∀ category confidence,
      parse_classification (cstr c2CexStr) ≠ .ok (classRecord category confidence) := by
  refine ⟨rfl, rfl, ?_⟩
  intro category confidence h
  rw [show parse_classification (cstr c2CexStr) = .error () from rfl] at h
  exact Except.noConfusion h

def c2WitParsed : CJson := .obj [(cstr "category", .str (cstr "Weird Category Name"))]

theorem classification_validates_witness :
    value_str c2WitParsed (cstr "category") default_category =
      .ok (cstr "Weird Category Name") ∧
    value_num c2WitParsed (cstr "confidence") jnumHalf = .ok jnumHalf ∧
    classify_parsed c2WitParsed = .ok (classRecord default_category jnumHalf) :=
  ⟨rfl, rfl,
   classification_validates_category_and_clamps.1 c2WitParsed
     (cstr "Weird Category Name") jnumHalf rfl rfl⟩


/-- `strFindChar` returns the index of an occurrence of the character. -/
theorem strFindChar_decomp (c : Char) :
    ∀ (s : List Char) (j : Nat), strFindChar s c = some j →
      ∃ u v, s = u ++ c :: v ∧ u.length = j := by
  intro s
  induction s with
  | nil => intro j h; unfold strFindChar at h; exact Option.noConfusion h
  | cons x xs ih =>
    intro j h
    unfold strFindChar at h
    by_cases hx : x = c
    · rw [if_pos hx] at h
      injection h with h
      subst hx
      exact ⟨[], xs, rfl, h⟩
    · rw [if_neg hx] at h
      cases hm : strFindChar xs c with
      | none => rw [hm] at h; exact absurd h (by simp)
      | some k =>
        rw [hm] at h
        simp only [Option.map_some'] at h
        injection h with h
        obtain ⟨u, v, huv, hlen⟩ := ih k hm
        exact ⟨x :: u, v, by simp [huv], by simp [hlen]; omega⟩

/-- `strRFindChar` returns the index of an occurrence of the character. -/
theorem strRFindChar_decomp (c : Char) (s : List Char) (j : Nat)
    (h : strRFindChar s c = some j) :
    ∃ u v, s = u ++ c :: v ∧ u.length = j := by
  unfold strRFindChar at h
  cases hm : strFindChar s.reverse c with
  | none => rw [hm] at h; exact Option.noConfusion h
  | some k =>
    rw [hm] at h
    injection h with h
    obtain ⟨u, v, huv, hlen⟩ := strFindChar_decomp c s.reverse k hm
    have hrev : s = v.reverse ++ c :: u.reverse := by
      have h2 : s.reverse.reverse = (u ++ c :: v).reverse := by rw [huv]
      simpa using h2
    have hslen : s.length = u.length + 1 + v.length := by
      have h3 : s.reverse.length = (u ++ c :: v).length := by rw [huv]
      simp at h3
      omega
    refine ⟨v.reverse, u.reverse, hrev, ?_⟩
    simp
    omega

/-- A located span names the computed start, the last `}` as end, with the
end strictly after the start. -/
theorem find_json_span_some (mo : List Char) (st en : Nat) :
    find_json_span mo = some (st, en) ↔
      json_span_start mo = some st ∧ strRFindChar mo rbraceCh = some en ∧ st < en := by
  unfold find_json_span
  cases json_span_start mo with
  | none => simp
  | some a =>
    cases strRFindChar mo rbraceCh with
    | none => simp
    | some b =>
      show (if a < b then some (a, b) else none) = some (st, en) ↔ _
      by_cases hab : a < b
      · rw [if_pos hab]
        simp only [Option.some.injEq, Prod.mk.injEq]
        constructor
        · rintro ⟨rfl, rfl⟩; exact ⟨rfl, rfl, hab⟩
        · rintro ⟨h1, h2, _⟩; exact ⟨h1, h2⟩
      · rw [if_neg hab]
        constructor
        · intro hh; exact Option.noConfusion hh
        · rintro ⟨h1, h2, hlt⟩; injection h1 with h1; injection h2 with h2
          subst h1; subst h2; exact absurd hlt hab

/-- C10.  Whenever a valid span is located (last `}` strictly after the
start), the slice handed to the cleaning step ends with the closing brace,
so the trailing-strip loop removes nothing. -/
theorem valid_span_slice_ends_in_brace (mo : List Char) (st en : Nat)
    (h : find_json_span mo = some (st, en)) :
    (substrCpp mo st (en - st + 1)).getLast? = some rbraceCh ∧
    strip_trailing (substrCpp mo st (en - st + 1)) = substrCpp mo st (en - st + 1) := by
  obtain ⟨-, hrf, hsten⟩ := (find_json_span_some mo st en).mp h
  obtain ⟨u, v, huv, hlen⟩ := strRFindChar_decomp rbraceCh mo en hrf
  have hst : st ≤ u.length := by omega
  have hslice : substrCpp mo st (en - st + 1) = u.drop st ++ [rbraceCh] := by
    unfold substrCpp
    rw [huv, List.drop_append_of_le_length hst]
    have hdl : en - st + 1 = (u.drop st).length + 1 := by simp; omega
    rw [hdl, List.take_append 1]
    simp
  constructor
  · rw [hslice]; exact List.getLast?_concat _
  · rw [hslice]
    unfold strip_trailing
    rw [List.reverse_append]
    simp only [List.reverse_cons, List.reverse_nil, List.nil_append, List.singleton_append]
    rw [List.dropWhile_cons_of_neg (by decide)]
    simp

theorem valid_span_slice_witness :
    find_json_span (cstr c10WitStr) = some (0, 2) ∧
    strip_trailing (substrCpp (cstr c10WitStr) 0 3) = substrCpp (cstr c10WitStr) 0 3 :=
  ⟨by decide, (valid_span_slice_ends_in_brace (cstr c10WitStr) 0 2 (by decide)).2⟩

theorem lastOr_cons (x : List Char) (xs : List (List Char)) (d : List Char) :
    lastOr (x :: xs) d = lastOr xs x := rfl

/-- The imperative scan of `extract_persona_line` is the documented pure
selection: first name hit wins immediately, otherwise the last paren hit. -/
theorem persona_loop_as_scan (name : List Char) :
    ∀ (lines : List (List Char)) (best : List Char),
      persona_loop name lines best =
        match ((lines.map cpp_trim).filter (fun l => !skipLineB l)).find? (nameHitB name) with
        | some l => l
        | none =>
          lastOr (((lines.map cpp_trim).filter (fun l => !skipLineB l)).filter parenHitB)
            best := by
  intro lines
  induction lines with
  | nil => intro best; rfl
  | cons line rest ih =>
    intro best
    unfold persona_loop
    by_cases hskip : skipLineB (cpp_trim line) = true
    · rw [if_pos hskip, ih best]
      have h1 : (!skipLineB (cpp_trim line)) = false := by simp [hskip]
      simp only [List.map_cons, List.filter_cons, h1, Bool.false_eq_true, if_false]
    · rw [if_neg hskip]
      have h1 : (!skipLineB (cpp_trim line)) = true := by simp [Bool.not_eq_true] at hskip ⊢; exact hskip
      by_cases hname : nameHitB name (cpp_trim line) = true
      · rw [if_pos hname]
        simp only [List.map_cons, List.filter_cons, h1, if_true, List.find?, hname]
      · rw [if_neg hname]
        have hname' : nameHitB name (cpp_trim line) = false := by
          simp [Bool.not_eq_true] at hname; exact hname
        by_cases hpar : parenHitB (cpp_trim line) = true
        · rw [if_pos hpar, ih (cpp_trim line)]
          simp only [List.map_cons, List.filter_cons, h1, if_true, List.find?, hname',
            hpar, lastOr_cons]
        · rw [if_neg hpar, ih best]
          have hpar' : parenHitB (cpp_trim line) = false := by
            simp [Bool.not_eq_true] at hpar; exact hpar
          simp only [List.map_cons, List.filter_cons, h1, if_true, List.find?, hname',
            hpar', Bool.false_eq_true, if_false]

/-- C5.  Persona line selection equals the specified scan — the first
trimmed non-skipped line that starts with the subject's name and is longer
than 50 characters, else the last-seen trimmed line longer than 50
characters containing both parentheses — and on the claimed lines it
selects the first line trimmed of quotes and whitespace. -/
theorem persona_selection_matches_spec :
    (∀ raw name, extract_persona_line raw name = persona_selection_spec raw name) ∧
    extract_persona_line (cstr exRawStr) (cstr exNameStr) = cstr exLineStr := by
  refine ⟨?_, by decide⟩
  intro raw name
  unfold extract_persona_line persona_selection_spec
  by_cases hraw : raw.isEmpty = true
  · rw [if_pos hraw]
    have hnil : raw = [] := by simpa using hraw
    subst hnil
    rfl
  · rw [if_neg hraw]
    exact persona_loop_as_scan name (getlines raw) []

/-- `persona_loop` either leaves the running best line unchanged or
returns one of the trimmed lines, of length over 50. -/
theorem persona_loop_result (name : List Char) :
    ∀ (lines : List (List Char)) (best : List Char),
      persona_loop name lines best = best ∨
      (persona_loop name lines best ∈ lines.map cpp_trim ∧
       50 < (persona_loop name lines best).length) := by
  intro lines
  induction lines with
  | nil => intro best; exact Or.inl rfl
  | cons line rest ih =>
    intro best
    unfold persona_loop
    by_cases hskip : skipLineB (cpp_trim line) = true
    · rw [if_pos hskip]
      rcases ih best with h | ⟨hm, hl⟩
      · exact Or.inl h
      · exact Or.inr ⟨by simp only [List.map_cons]; exact List.mem_cons_of_mem _ hm, hl⟩
    · rw [if_neg hskip]
      by_cases hname : nameHitB name (cpp_trim line) = true
      · rw [if_pos hname]
        exact Or.inr ⟨by simp, of_decide_eq_true ((Bool.and_eq_true _ _).mp hname).2⟩
      · rw [if_neg hname]
        by_cases hpar : parenHitB (cpp_trim line) = true
        · rw [if_pos hpar]
          have hlen := of_decide_eq_true
            (((Bool.and_eq_true _ _).mp (((Bool.and_eq_true _ _).mp hpar).1)).1)
          rcases ih (cpp_trim line) with h | ⟨hm, hl⟩
          · exact Or.inr ⟨by rw [h]; simp, by rw [h]; exact hlen⟩
          · exact Or.inr ⟨by simp only [List.map_cons]; exact List.mem_cons_of_mem _ hm, hl⟩
        · rw [if_neg hpar]
          rcases ih best with h | ⟨hm, hl⟩
          · exact Or.inl h
          · exact Or.inr ⟨by simp only [List.map_cons]; exact List.mem_cons_of_mem _ hm, hl⟩

/-- C9.  The extraction result is the empty string or one of the trimmed
lines with length strictly over 50 characters, so the caller's fallback
test (`empty() || length() < 20`) can only fire on an empty result. -/
theorem persona_result_empty_or_exceeds_50 (raw name : List Char) :
    (extract_persona_line raw name = [] ∨
      (extract_persona_line raw name ∈ (getlines raw).map cpp_trim ∧
       50 < (extract_persona_line raw name).length)) ∧
    ((extract_persona_line raw name).length < 20 → extract_persona_line raw name = []) := by
  have hmain : extract_persona_line raw name = [] ∨
      (extract_persona_line raw name ∈ (getlines raw).map cpp_trim ∧
       50 < (extract_persona_line raw name).length) := by
    unfold extract_persona_line
    by_cases hraw : raw.isEmpty = true
    · rw [if_pos hraw]; exact Or.inl rfl
    · rw [if_neg hraw]
      exact persona_loop_result name (getlines raw) []
  refine ⟨hmain, fun hlen => ?_⟩
  rcases hmain with he | ⟨-, hl⟩
  · exact he
  · omega

theorem persona_result_witness :
    (extract_persona_line (cstr c9WitStr) (cstr exNameStr)).length < 20 ∧
    extract_persona_line (cstr c9WitStr) (cstr exNameStr) = [] :=
  ⟨by decide,
   (persona_result_empty_or_exceeds_50 (cstr c9WitStr) (cstr exNameStr)).2 (by decide)⟩

/-- Reaching the first end-of-sequence token: if the decode loop has not
already stopped for another reason, it stops there, accepting and decoding
exactly the tokens sampled before it and emitting no text for it. -/
theorem gen_loop_first_eos (env : GenEnv) :
    ∀ (i fuel nGen : Nat) (acc : List Char) (accepted decodes : Nat),
      i < fuel →
      env.sample (nGen + i) = env.eosTok →
      (∀ j, j < i → env.sample (nGen + j) ≠ env.eosTok) →
      (∀ j, j < i → ¬env.sample (nGen + j) < 0) →
      (∀ j, j < i → env.decodeOk (nGen + j) = true) →
      gen_loop env fuel nGen acc accepted decodes =
        ⟨acc ++ piecesFrom env nGen i, nGen + i, .endOfSequence,
         accepted + i, decodes + i⟩ := by
  intro i
  induction i with
  | zero =>
    intro fuel nGen acc accepted decodes hfuel heos hne hval hdec
    cases fuel with
    | zero => omega
    | succ f =>
      simp only [gen_loop]
      rw [Nat.add_zero] at heos
      rw [if_pos heos]
      simp [piecesFrom]
  | succ k ih =>
    intro fuel nGen acc accepted decodes hfuel heos hne hval hdec
    cases fuel with
    | zero => omega
    | succ f =>
      simp only [gen_loop]
      have h0ne : ¬env.sample nGen = env.eosTok := by
        have h0 := hne 0 (Nat.succ_pos k); rwa [Nat.add_zero] at h0
      have h0val : ¬env.sample nGen < 0 := by
        have h0 := hval 0 (Nat.succ_pos k); rwa [Nat.add_zero] at h0
      have h0dec : env.decodeOk nGen = true := by
        have h0 := hdec 0 (Nat.succ_pos k); rwa [Nat.add_zero] at h0
      rw [if_neg h0ne, if_neg h0val, if_pos h0dec]
      have heos' : env.sample (nGen + 1 + k) = env.eosTok := by
        rwa [show nGen + 1 + k = nGen + (k + 1) from by omega]
      have hne' : ∀ j, j < k → env.sample (nGen + 1 + j) ≠ env.eosTok := by
        intro j hj
        have hh := hne (j + 1) (by omega)
        rwa [show nGen + (j + 1) = nGen + 1 + j from by omega] at hh
      have hval' : ∀ j, j < k → ¬env.sample (nGen + 1 + j) < 0 := by
        intro j hj
        have hh := hval (j + 1) (by omega)
        rwa [show nGen + (j + 1) = nGen + 1 + j from by omega] at hh
      have hdec' : ∀ j, j < k → env.decodeOk (nGen + 1 + j) = true := by
        intro j hj
        have hh := hdec (j + 1) (by omega)
        rwa [show nGen + (j + 1) = nGen + 1 + j from by omega] at hh
      rw [ih f (nGen + 1) _ (accepted + 1) (decodes + 1) (by omega) heos' hne' hval' hdec']
      rw [show nGen + 1 + k = nGen + (k + 1) from by omega,
          show accepted + 1 + k = accepted + (k + 1) from by omega,
          show decodes + 1 + k = decodes + (k + 1) from by omega]
      simp [piecesFrom, List.append_assoc]

/-- C4.  Generation stops at the first sampled end-of-sequence token with
stop reason `EndOfSequence`: if the first such token comes at step `i`
(within the budget, no earlier invalid token or decode failure), the loop
ends there with exactly `i` tokens generated, its text the pieces of the
tokens sampled before step `i` — the end-of-sequence token contributes no
text, no accept and no decode. -/
theorem generation_stops_at_first_eos (env : GenEnv) (maxTokens i : Nat)
    (hi : i < maxTokens)
    (heos : env.sample i = env.eosTok)
    (hne : ∀ j, j < i → env.sample j ≠ env.eosTok)
    (hval : ∀ j, j < i → ¬env.sample j < 0)
    (hdec : ∀ j, j < i → env.decodeOk j = true) :
    generate_tokens env maxTokens =
      ⟨piecesFrom env 0 i, i, .endOfSequence, i, i⟩ := by
  unfold generate_tokens
  have h := gen_loop_first_eos env i maxTokens 0 [] 0 0 hi
    (by simpa using heos) (fun j hj => by simpa using hne j hj)
    (fun j hj => by simpa using hval j hj) (fun j hj => by simpa using hdec j hj)
  simpa using h

def envEosW : GenEnv :=
  ⟨fun _ => some [], 2, true, fun n => if n = 1 then 2 else 7,
   fun _ => some [byteChar 65], fun _ => true⟩

theorem generation_stops_at_first_eos_witness :
    envEosW.sample 1 = envEosW.eosTok ∧
    (∀ j, j < 1 → envEosW.sample j ≠ envEosW.eosTok) ∧
    generate_tokens envEosW 5 = ⟨[byteChar 65], 1, .endOfSequence, 1, 1⟩ :=
  ⟨by decide, by decide,
   generation_stops_at_first_eos envEosW 5 1 (by decide) (by decide) (by decide)
     (by decide) (by decide)⟩

/-- A loop run that exits with `MaxTokensReached` performed one accept and
one decode per remaining step. -/
theorem gen_loop_max_run (env : GenEnv) :
    ∀ (fuel nGen : Nat) (acc : List Char) (accepted decodes : Nat),
      (gen_loop env fuel nGen acc accepted decodes).stop = .maxTokensReached →
      (gen_loop env fuel nGen acc accepted decodes).loopAccepts = accepted + fuel ∧
      (gen_loop env fuel nGen acc accepted decodes).nGenerated = nGen + fuel := by
  intro fuel
  induction fuel with
  | zero => intro nGen acc accepted decodes _; exact ⟨rfl, rfl⟩
  | succ f ih =>
    intro nGen acc accepted decodes h
    simp only [gen_loop] at h ⊢
    by_cases h1 : env.sample nGen = env.eosTok
    · rw [if_pos h1] at h; exact StopReason.noConfusion h
    · rw [if_neg h1] at h ⊢
      by_cases h2 : env.sample nGen < 0
      · rw [if_pos h2] at h; exact StopReason.noConfusion h
      · rw [if_neg h2] at h ⊢
        by_cases h3 : env.decodeOk nGen = true
        · rw [if_pos h3] at h ⊢
          obtain ⟨ha, hn⟩ := ih (nGen + 1) _ (accepted + 1) (decodes + 1) h
          exact ⟨ha.trans (by omega), hn.trans (by omega)⟩
        · rw [if_neg h3] at h; exact StopReason.noConfusion h

/-- C6.  Whenever the decode loop terminates because `max_tokens` tokens
have been emitted, exactly `max_tokens` tokens were accepted by the
sampler chain inside the loop (each full iteration accepts exactly one). -/
theorem max_tokens_exact_accepts (env : GenEnv) (maxTokens : Nat)
    (h : (generate_tokens env maxTokens).stop = .maxTokensReached) :
    (generate_tokens env maxTokens).loopAccepts = maxTokens ∧
    (generate_tokens env maxTokens).nGenerated = maxTokens := by
  unfold generate_tokens at h ⊢
  obtain ⟨ha, hn⟩ := gen_loop_max_run env maxTokens 0 [] 0 0 h
  exact ⟨by simpa using ha, by simpa using hn⟩

def envMaxW : GenEnv :=
  ⟨fun _ => some [], 2, true, fun _ => 7, fun _ => some [byteChar 66], fun _ => true⟩

theorem max_tokens_exact_accepts_witness :
    (generate_tokens envMaxW 3).stop = .maxTokensReached ∧
    (generate_tokens envMaxW 3).loopAccepts = 3 :=
  ⟨by decide, (max_tokens_exact_accepts envMaxW 3 (by decide)).1⟩

/-- C3.  A prompt whose token count reaches the context capacity is
rejected with `ContextOverflow` right after tokenization: no `llama_decode`
call (prefill or loop) and no sampler accept happens. -/
theorem generate_rejects_overflow_before_decode (env : GenEnv) (nCtx : Nat)
    (prompt : List Char) (maxTokens : Nat) (toks : List Int)
    (htok : env.tokenize prompt = some toks)
    (hlen : nCtx ≤ toks.length) :
    generate env nCtx prompt maxTokens = ⟨.contextOverflow, 0, 0⟩ := by
  unfold generate
  simp [htok, hlen]

def envOvW : GenEnv :=
  ⟨fun _ => some [1, 2, 3], 2, true, fun _ => 7, fun _ => some [], fun _ => true⟩

theorem generate_rejects_overflow_witness :
    envOvW.tokenize [] = some [1, 2, 3] ∧
    generate envOvW 3 [] 5 = ⟨.contextOverflow, 0, 0⟩ :=
  ⟨rfl,
   generate_rejects_overflow_before_decode envOvW 3 [] 5 [1, 2, 3] rfl (by decide)⟩
